import Mathlib

/-!
Shallow Lean embedding of the code-intelligence retrieval pipeline of the
CodetoPromptGenerator python backend, and proofs about the claims of its
natural-language specification.

Modelling conventions:
* Python `str` values are modelled as `List Char` (`PyStr`); the paths and
  candidate strings of this code base are ASCII, and `str.lower` is modelled
  by ASCII lowering.
* Python dict / set behaviour is modelled explicitly where it matters
  (later entries of a dict comprehension overwrite earlier ones, `setdefault`
  plus `append` accumulates values in iteration order).
* Python floats are modelled by `ℚ`.  Every float produced by the embedded
  code is a small rational (sums of naturals plus one division by a list
  length ≤ 500), and the comparisons performed on them (`<`, `> 0`, sort
  keys) agree with exact rational arithmetic at these magnitudes.
* External effects (HTTP transport, tree-sitter parsing, the embedding
  encoder, `json.loads` of arbitrary text, the regex engine where the claim
  does not depend on it) are oracles: inputs of the embedded functions.
-/

namespace CTP

/-- Python strings, modelled as lists of characters. -/
abbrev PyStr := List Char

/-- Convenience conversion from a Lean string literal. -/
def pys (s : String) : PyStr := s.toList

/-- ASCII lower-casing of one character: models Python `str.lower` on the
ASCII strings this service manipulates. -/
def lowerChar (c : Char) : Char :=
  if 'A' ≤ c ∧ c ≤ 'Z' then Char.ofNat (c.toNat + 32) else c

/-- `s.lower()` on ASCII strings. -/
def pyLower (s : PyStr) : PyStr := s.map lowerChar

/-- Python whitespace characters stripped by `str.strip()` (ASCII range). -/
def wsChars : List Char := [' ', '\t', '\n', '\r', '\x0b', '\x0c']

/-- `s.lstrip(cs)`: drop leading characters belonging to `cs`. -/
def lstripChars (cs : List Char) (s : PyStr) : PyStr :=
  s.dropWhile (fun c => c ∈ cs)

/-- `s.rstrip(cs)`: drop trailing characters belonging to `cs`. -/
def rstripChars (cs : List Char) (s : PyStr) : PyStr :=
  (s.reverse.dropWhile (fun c => c ∈ cs)).reverse

/-- `s.strip()` with no arguments (whitespace on both ends). -/
def pyStripWs (s : PyStr) : PyStr :=
  rstripChars wsChars (lstripChars wsChars s)

/-- `s.split(c)` for a single separator character, Python semantics:
`"".split("/") = [""]`, `"/".split("/") = ["", ""]`. -/
def splitOnChar (c : Char) : PyStr → List PyStr
  | [] => [[]]
  | x :: xs =>
    if x = c then [] :: splitOnChar c xs
    else
      match splitOnChar c xs with
      | h :: t => (x :: h) :: t
      | [] => [[x]]

/-- Join a list of segments with a single separator character. -/
def joinChar (c : Char) : List PyStr → PyStr
  | [] => []
  | [s] => s
  | s :: rest => s ++ c :: joinChar c rest

/-- The components of `pathlib.PurePosixPath(s)` for a non-rooted `s` (every
string fed to it in this service has had leading `/` stripped): split on
`/`, dropping empty segments and `.` segments. -/
def pathParts (s : PyStr) : List PyStr :=
  (splitOnChar '/' s).filter (fun seg => seg ≠ [] ∧ seg ≠ ['.'])

/-- `PurePosixPath(s).as_posix()` for non-rooted `s` (the empty path prints
as `"."`). -/
def asPosix (s : PyStr) : PyStr :=
  match pathParts s with
  | [] => ['.']
  | ps => joinChar '/' ps

/-- `PurePosixPath(s).name`: the final path component (empty for `"."`). -/
def ppName (s : PyStr) : PyStr := ((pathParts s).getLast?).getD []

/-- Index of the last occurrence of `c` in `s`, if any. -/
def lastIdxOf (c : Char) (s : PyStr) : Option Nat :=
  (List.range s.length).foldl
    (fun acc i => if s.get? i = some c then some i else acc) none

/-- `PurePosixPath(s).suffix`: the extension of the final component; empty
when the last dot is the first character of the name or the name ends in a
dot. -/
def ppSuffix (s : PyStr) : PyStr :=
  let n := ppName s
  match lastIdxOf '.' n with
  | some i => if 0 < i ∧ i + 1 < n.length then n.drop i else []
  | none => []

/-- `AutoselectService._norm`: strip every leading `.`, `/` and `\`
character, then normalise through `PurePosixPath(...).as_posix()`.
NOTE: interior backslashes are NOT converted to forward slashes. -/
def pyNorm (s : PyStr) : PyStr :=
  asPosix (lstripChars ['.', '/', '\\'] s)

/-- The guard `pp.suffix or "." in pp.name` used by `_massage` before a
basename lookup. -/
def hasDotName (s : PyStr) : Bool :=
  ppSuffix s ≠ [] ∨ '.' ∈ ppName s

/-- A JSON array element handed to `_massage`: either a string or some
non-string value (which `_massage` skips). -/
inductive PyObj where
  | str (s : PyStr)
  | nonstr
deriving DecidableEq

/-- The exact lookup table `allow_exact = {norm(a).lower(): a}` of
`_massage`: a Python dict comprehension, so for duplicate keys the LAST
allowed path wins. -/
def exactResolve (allowed : List PyStr) (key : PyStr) : Option PyStr :=
  allowed.reverse.find? (fun a => pyLower (pyNorm a) == key)

/-- The `basename_map` bucket of `_massage` for one key: all allowed paths
whose normalised name contains a dot and matches the key, in list order
(Python `setdefault` + `append` during iteration over `allowed`). -/
def basenameMatches (allowed : List PyStr) (key : PyStr) : List PyStr :=
  allowed.filter
    (fun a => hasDotName (pyNorm a) && pyLower (ppName (pyNorm a)) == key)

/-- The suffix keys one allowed path contributes to `suffix_map`: the last
`i` slash-separated segments of its normalised form, for `i = 1..3`
(bounded by the segment count), lower-cased. -/
def suffixKeys (normPath : PyStr) : List PyStr :=
  let segs := splitOnChar '/' normPath
  (List.range' 1 (min 3 segs.length)).map
    (fun i => pyLower (joinChar '/' (segs.drop (segs.length - i))))

/-- The `suffix_map` bucket of `_massage` for one key, in `allowed` order. -/
def suffixMatches (allowed : List PyStr) (key : PyStr) : List PyStr :=
  allowed.filter (fun a => (suffixKeys (pyNorm a)).contains key)

/-- The `len(matches) == 1` acceptance of `_massage`. -/
def uniqueMatch : List PyStr → Option PyStr
  | [b] => some b
  | _ => none

/-- Resolution of one already-normalised candidate string against
`allowed`, in the priority order of the loop body of `_massage`: (1) exact
match in `allow_exact`, (2) unique basename match (only when the
candidate's name contains a dot), (3) unique suffix match; otherwise the
candidate is dropped. -/
def resolveStr (allowed : List PyStr) (candNorm : PyStr) : Option PyStr :=
  match exactResolve allowed candNorm with
  | some r => some r
  | none =>
    match (if hasDotName candNorm then
             uniqueMatch (basenameMatches allowed (pyLower (ppName candNorm)))
           else none) with
    | some r => some r
    | none => uniqueMatch (suffixMatches allowed candNorm)

/-- Resolution of one model candidate: strip, normalise and lower the
string, then resolve it; non-string items are skipped. -/
def massageResolve (allowed : List PyStr) : PyObj → Option PyStr
  | .nonstr => none
  | .str raw =>
    resolveStr allowed (pyLower (pyNorm (rstripChars [',', ';'] (pyStripWs raw))))

/-- The accumulation loop of `_massage`: `seen` holds the already chosen
paths; a resolved path is appended when it is truthy (non-empty) and not
seen yet. -/
def massageAux (allowed : List PyStr) : List PyObj → List PyStr → List PyStr
  | [], _ => []
  | it :: rest, seen =>
    match massageResolve allowed it with
    | some r =>
      if r ≠ [] ∧ r ∉ seen then r :: massageAux allowed rest (r :: seen)
      else massageAux allowed rest seen
    | none => massageAux allowed rest seen

/-- `AutoselectService._massage(items, allowed)`. -/
def massage (items : List PyObj) (allowed : List PyStr) : List PyStr :=
  massageAux allowed items []

/-- First-occurrence duplicate removal (auxiliary, with an exclusion set). -/
def dedupFirstAux : List PyStr → List PyStr → List PyStr
  | [], _ => []
  | x :: xs, seen =>
    if x ∈ seen then dedupFirstAux xs seen
    else x :: dedupFirstAux xs (x :: seen)

/-- Remove duplicates keeping the first occurrence. -/
def dedupFirst (l : List PyStr) : List PyStr := dedupFirstAux l []

/-! ### Heuristic ranker (`services/autoselect_heuristics.py`) -/

/-- A character matched by the keyword regex `[A-Za-z_]{3,}`. -/
def isWordChar (c : Char) : Bool :=
  ('A' ≤ c ∧ c ≤ 'Z') ∨ ('a' ≤ c ∧ c ≤ 'z') ∨ c = '_'

/-- Maximal runs of word characters (`cur` is the reversed current run). -/
def wordRunsAux (cur : PyStr) : PyStr → List PyStr
  | [] => if cur = [] then [] else [cur.reverse]
  | c :: cs =>
    if isWordChar c then wordRunsAux (c :: cur) cs
    else if cur = [] then wordRunsAux [] cs
    else cur.reverse :: wordRunsAux [] cs

/-- `_tokens(text)`: the set of lower-cased maximal `[A-Za-z_]` runs of
length ≥ 3 (a maximal run matches the greedy regex `[A-Za-z_]{3,}` exactly
when it has at least three characters).  The Python set is modelled as a
duplicate-free list. -/
def pyTokens (s : PyStr) : List PyStr :=
  dedupFirst (((wordRunsAux [] s).filter (fun r => 3 ≤ r.length)).map pyLower)

/-- `len(A & B)` for two Python sets, `A` given as a duplicate-free list. -/
def interCount (A B : List PyStr) : Nat :=
  (A.filter (fun t => B.contains t)).length

/-- `needle in hay` (Python substring test). -/
def pyContains (hay needle : PyStr) : Bool :=
  (List.range (hay.length + 1)).any (fun i => needle.isPrefixOf (hay.drop i))

/-- `_lang_hint(rel_path)`: `pathlib.Path(rel_path).suffix.lower()`. -/
def langHint (rel : PyStr) : PyStr := pyLower (ppSuffix rel)

/-- The value stored for `rel` by the dict comprehension
`{path: idx for idx, path in enumerate(reversed(emb_results))}` (for a
duplicated path the last assignment, i.e. the first occurrence in
`emb_results`, wins). -/
def embRank (embResults : List PyStr) (rel : PyStr) : Option Nat :=
  if embResults.contains rel then
    some (embResults.length - 1 - embResults.indexOf rel)
  else none

/-- The per-candidate score of `rank_candidates`.  Python floats are
modelled as exact rationals: every score is a sum of naturals plus at most
one term `(emb_rank / max_rank) * 100` with `max_rank ≤ 500`, and double
arithmetic is exact on the comparisons performed with these values. -/
def rankScore (instrToks : List PyStr) (summaryOf : PyStr → PyStr)
    (langBias : List PyStr) (embResults : List PyStr) (rel : PyStr) : ℚ :=
  let s1 : ℚ := 2 * (interCount instrToks (pyTokens rel) : ℚ)
  let s2 : ℚ := 3 * (interCount instrToks (pyTokens (summaryOf rel)) : ℚ)
  let s3 : ℚ := if langBias ≠ [] ∧ langHint rel ∈ langBias then 4 else 0
  let s4 : ℚ :=
    match embRank embResults rel with
    | some r => Rat.divInt r embResults.length * 100
    | none => 0
  let s5 : ℚ :=
    10 * ((instrToks.filter
      (fun t => 4 < t.length ∧ pyContains (pyLower rel) t)).length : ℚ)
  s1 + s2 + s3 + s4 + s5

/-- The sort order of `ranked.sort(key=lambda t: (-t[0], t[1]))`: score
descending, then path ascending (lexicographic by code point). -/
def rankLe (a b : ℚ × PyStr) : Prop :=
  b.1 < a.1 ∨ (a.1 = b.1 ∧ a.2 ≤ b.2)

instance : DecidableRel rankLe := fun a b => by
  unfold rankLe; exact inferInstance

/-- `rank_candidates` (the `base_dir` prefixing of `os.path.join` is folded
into `summaryOf`, and the embedding query result `top_k(instructions,
min(500, len(tree_paths)))` is the oracle input `embResults`).  `rankLe` is
antisymmetric, so the sorted list is the same for every correct sort and in
particular for Python's stable sort. -/
def rank_candidates (treePaths : List PyStr) (instructions : PyStr)
    (summaryOf : PyStr → PyStr) (embResults : List PyStr)
    (langBias : List PyStr) (keepTop : Nat) : List PyStr :=
  let instrToks := pyTokens instructions
  let ranked := treePaths.map
    (fun rel => (rankScore instrToks summaryOf langBias embResults rel, rel))
  let sorted := ranked.insertionSort rankLe
  let top := (sorted.take keepTop).map Prod.snd
  match sorted with
  | [] => []
  | (s0, _) :: _ => if 0 < s0 then top else treePaths.take keepTop

/-! ### Selection orchestrator (`services/autoselect_service.py`) -/

/-- The parsed JSON object of an upstream reply.  Per the response schema
all three keys are optional in practice; `autoselect_paths` defends with
`.get` defaults.  (The `imports`/`ask` payloads are carried verbatim.) -/
structure UpReply where
  selected : Option (List PyObj)
  ask : Option (List PyStr)
  confidence : Option ℚ
deriving DecidableEq

/-- `choices[0].message.content` of the HTTP reply body: a ready dict, a
string (with the outcome of `json.loads` on it supplied as an oracle,
because the JSON grammar itself is external to this service), or some
other JSON type. -/
inductive MsgContent where
  | jsonDict (d : UpReply)
  | strContent (s : PyStr) (parsed : Option UpReply)
  | otherType
deriving DecidableEq

/-- One HTTP response of the OpenRouter transport. -/
structure HttpResponse where
  status : Nat
  content : MsgContent
deriving DecidableEq

/-- The failure modes `_call_openrouter` signals as `UpstreamError`. -/
inductive UpErrKind where
  | httpStatus (code : Nat)
  | invalidJson
  | unexpectedPayload
deriving DecidableEq

/-- `AutoselectService._call_openrouter`, over an abstract transport that
yields the response of attempt `n` as `responses n`.  The source performs
exactly one `client.post` (no loop), so only `responses 0` is consulted:
any non-200 status raises `UpstreamError` at once, a string body that
`json.loads` cannot parse raises `UpstreamError` at once. -/
def callOpenrouter (responses : Nat → HttpResponse) : Except UpErrKind UpReply :=
  let rsp := responses 0
  if rsp.status ≠ 200 then .error (.httpStatus rsp.status)
  else
    match rsp.content with
    | .jsonDict d => .ok d
    | .strContent _ parsed =>
      match parsed with
      | some d => .ok d
      | none => .error .invalidJson
    | .otherType => .error .unexpectedPayload

/-- `AutoselectService.__init__` raises `ConfigError` exactly when
`OPENROUTER_API_KEY` is unset or falsy (the empty string). -/
def initRaisesConfigError (apiKey : Option PyStr) : Bool :=
  apiKey = none ∨ apiKey = some []

/-- The reply dict built by `autoselect_paths` (an `ask` key is present
only on the low-confidence branch). -/
structure SelReply where
  selected : List PyStr
  ask : Option (List PyStr)
  confidence : ℚ
deriving DecidableEq

/-- The tail of `autoselect_paths`: massage the selected paths against the
shortlist, read the confidence (default 0.0), and attach the clarification
questions exactly when `conf < 0.95` and the call carried no
clarifications. -/
def autoselectFinalize (llmJson : UpReply) (shortlist : List PyStr)
    (clarifications : Option (List (PyStr × PyStr))) : List PyStr × SelReply :=
  let selected := massage (llmJson.selected.getD []) shortlist
  let conf := llmJson.confidence.getD 0
  if conf < mkRat 95 100 ∧ clarifications = none then
    (selected, ⟨selected, some (llmJson.ask.getD []), conf⟩)
  else
    (selected, ⟨selected, none, conf⟩)

/-- `autoselect_paths` over an abstract upstream oracle: the body contains
a single `_call_openrouter` call, modelled by consulting `oracle 0` only
(prompt construction does not influence the gate and is omitted). -/
def autoselect_paths (oracle : Nat → UpReply) (treePaths : List PyStr)
    (instructions : PyStr) (summaryOf : PyStr → PyStr)
    (embResults : List PyStr) (langBias : List PyStr)
    (clarifications : Option (List (PyStr × PyStr))) : List PyStr × SelReply :=
  let shortlist :=
    rank_candidates treePaths instructions summaryOf embResults langBias 120
  autoselectFinalize (oracle 0) shortlist clarifications

/-- `s.strip(cs)` (both ends). -/
def stripChars (cs : List Char) (s : PyStr) : PyStr :=
  rstripChars cs (lstripChars cs s)

/-- Python `str.splitlines` restricted to the ASCII line breaks `\n`, `\r`
and `\r\n` (no trailing empty line for a terminal line break). -/
def pySplitlinesAux (cur : PyStr) : PyStr → List PyStr
  | [] => if cur = [] then [] else [cur.reverse]
  | c :: rest =>
    if c = '\r' then
      match rest with
      | '\n' :: rest2 => cur.reverse :: pySplitlinesAux [] rest2
      | other => cur.reverse :: pySplitlinesAux [] other
    else if c = '\n' then cur.reverse :: pySplitlinesAux [] rest
    else pySplitlinesAux (c :: cur) rest

/-- `s.splitlines()`. -/
def pySplitlines (s : PyStr) : List PyStr := pySplitlinesAux [] s

/-- `AutoselectService._strip_fmt`: strip whitespace, leading bullet
markers and backticks, trailing backticks, trailing `,;[] ` and finally
surrounding quotes. -/
def stripFmt (line : PyStr) : PyStr :=
  let l1 := pyStripWs line
  let l2 := rstripChars ['`'] (lstripChars ['-', '*', '•', '`'] l1)
  let l3 := rstripChars [',', ';', '[', ']', ' '] l2
  stripChars ['"', Char.ofNat 39] l3

/-- `AutoselectService._legacy_parse`: strip formatting from every
non-blank line and massage the survivors against `allowed`. -/
def legacyParse (raw : PyStr) (allowed : List PyStr) : List PyStr :=
  massage
    (((pySplitlines raw).filter (fun l => pyStripWs l ≠ [])).map
      (fun l => PyObj.str (stripFmt l)))
    allowed

/-! ### File summaries (`_file_summary` / `_cheap_summary`) -/

/-- The per-file result of `CodemapService._extract_one`: either an error
stub `{"error": msg}` or a symbol dict.  The `imports`/`exports` payloads
of the real dict are never consulted by the properties below and are
omitted from the model. -/
inductive CodemapInfo where
  | errorStub (msg : PyStr)
  | symbols (classes functions references : List PyStr)
deriving DecidableEq

/-- `AutoselectService._SUMMARY_MAX_CHARS` (the source sets 20,000, not the
10,000 of the specification). -/
def SUMMARY_MAX_CHARS : Nat := 20000

/-- Join a list of strings with a separator string. -/
def joinWith (sep : PyStr) : List PyStr → PyStr
  | [] => []
  | [s] => s
  | s :: rest => s ++ sep ++ joinWith sep rest

/-- Collapse each maximal whitespace run to a single space
(`re.sub(r"\s+", " ", s)` on ASCII text). -/
def collapseWsAux (prevWs : Bool) : PyStr → PyStr
  | [] => []
  | c :: cs =>
    if c ∈ wsChars then
      if prevWs then collapseWsAux true cs else ' ' :: collapseWsAux true cs
    else c :: collapseWsAux false cs

/-- `re.sub(r"\s+", " ", s)`. -/
def collapseWs (s : PyStr) : PyStr := collapseWsAux false s

/-- `AutoselectService._cheap_summary`.  The matches of the (external
regex-engine) header pattern `header_re.findall(text)` are an oracle input
`headers`; the claim proved about this function is independent of them. -/
def cheapSummary (headers : List PyStr) (text : PyStr)
    (maxLen : Nat := SUMMARY_MAX_CHARS) : PyStr :=
  if text = [] then []
  else if headers ≠ [] then
    let summary := joinWith (pys " / ") ((headers.take 50).map pyStripWs)
    if maxLen < summary.length then summary.take maxLen else summary
  else
    let lines :=
      (((pySplitlines text).map pyStripWs).filter (fun l => l ≠ [])).take 10
    let summary := collapseWs (joinWith (pys " ") lines)
    if maxLen < summary.length then summary.take (maxLen - 1) ++ ['…']
    else summary

/-- The `parts` list of the structured branch of `_file_summary`
(bucket caps 10 / 15 / 20). -/
def summaryParts (c f r : List PyStr) : List PyStr :=
  (if c ≠ [] then [pys "Classes: " ++ joinWith (pys ", ") (c.take 10)] else [])
    ++ (if f ≠ [] then
        [pys "Functions: " ++ joinWith (pys ", ") (f.take 15)] else [])
    ++ (if r ≠ [] then [pys "Refs: " ++ joinWith (pys ", ") (r.take 20)] else [])

/-- `AutoselectService._file_summary`: `extraction` is the outcome of the
guarded `extract_codemap` call for this file (an exception is downgraded to
an error stub), `text` is `read_text(abs_path) or ""`, `headers` the
header-regex oracle of the cheap fallback. -/
def dataOf (extraction : Except PyStr CodemapInfo) : CodemapInfo :=
  match extraction with
  | .ok i => i
  | .error _ => .errorStub (pys "Extraction failed")

/-- The structured branch of `_file_summary`. -/
def structuredSummary (c f r : List PyStr) (headers : List PyStr)
    (text : PyStr) : PyStr :=
  if summaryParts c f r ≠ [] then
    let s := joinWith (pys "; ") (summaryParts c f r)
    if SUMMARY_MAX_CHARS < s.length then s.take SUMMARY_MAX_CHARS else s
  else cheapSummary headers text

def fileSummary (extraction : Except PyStr CodemapInfo) (headers : List PyStr)
    (text : PyStr) : PyStr :=
  match dataOf extraction with
  | .symbols c f r => structuredSummary c f r headers text
  | .errorStub _ => cheapSummary headers text

/-! ### Codemap service (`services/codemap_service.py`) -/

/-- `_is_binary_sample(chunk)`: non-empty and more than 30 % of the bytes
are below 9 or above 126.  The Python comparison is on doubles; for sample
lengths ≤ 2048 the double comparison agrees with the exact rational one
(the gap between any `nontext/len` and `3/10` is at least `1/20480`, far
above double rounding error). -/
def isBinarySample (chunk : List Nat) : Bool :=
  if chunk = [] then false
  else
    Rat.divInt ((chunk.filter (fun b => b < 9 ∨ 126 < b)).length) chunk.length
      > Rat.divInt 3 10

/-- `os.path.splitext(p)[1]` (posix): the part of `p` from the last dot on,
provided that dot lies inside the final component and some non-dot
character precedes it there. -/
def splitextExt (p : PyStr) : PyStr :=
  let sepIdx : Int := match lastIdxOf '/' p with | some i => i | none => -1
  let dotIdx : Int := match lastIdxOf '.' p with | some i => i | none => -1
  if sepIdx < dotIdx then
    let base := (p.take dotIdx.toNat).drop (sepIdx + 1).toNat
    if base.any (fun c => c ≠ '.') then p.drop dotIdx.toNat else []
  else []

/-- `_EXT_TO_LANG`. -/
def extTable : List (PyStr × PyStr) :=
  [(pys ".py", pys "python"),
   (pys ".js", pys "javascript"), (pys ".jsx", pys "javascript"),
   (pys ".ts", pys "typescript"), (pys ".tsx", pys "typescript"),
   (pys ".c", pys "c"), (pys ".h", pys "cpp"), (pys ".cc", pys "cpp"),
   (pys ".cxx", pys "cpp"), (pys ".cpp", pys "cpp"), (pys ".hpp", pys "cpp"),
   (pys ".hh", pys "cpp"),
   (pys ".md", pys "txt"), (pys ".txt", pys "txt"), (pys ".env", pys "txt"),
   (pys ".json", pys "txt")]

/-- `CodemapService._lang_for`. -/
def langFor (path : PyStr) : Option PyStr :=
  (extTable.find? (fun kv => kv.1 == pyLower (splitextExt path))).map
    (fun kv => kv.2)

/-- One file as `_extract_one` observes it.  `fileBytes` is the on-disk
content; `textRead` is the outcome of `read_text(abs_path)`: `.ok (some t)`
is the decoded text, `.ok none` the `None` that `read_text` returns for the
exception classes it catches (FileNotFoundError / PermissionError /
OSError), and `.error msg` an exception it does NOT catch — in particular
the `UnicodeDecodeError` raised when decoding binary bytes as UTF-8 — which
propagates out of `_extract_one` (messages abbreviated to ASCII);
`parsedClasses` / `parsedFunctions` / `parsedReferences` are the
tree-sitter symbol-collector output (an external parser, hence an oracle);
`txtHeads` is the heading-regex oracle of the txt fallback. -/
structure SrcFile where
  path : PyStr
  fileBytes : List Nat
  size : Nat
  textRead : Except PyStr (Option PyStr)
  parsedClasses : List PyStr
  parsedFunctions : List PyStr
  parsedReferences : List PyStr
  txtHeads : List PyStr

/-- The guarded sample read of `_extract_one` (codemap_service.py:549-552):
`raw = self._storage.read_bytes(abs_path, _BINARY_SAMPLE_BYTES)` inside
`try/except`.  `FileStorageRepository.read_bytes` is declared
`read_bytes(self, file_path)` — it accepts no size argument — so this call
always raises `TypeError` before touching the file, and the handler
`except Exception: raw = b""` always substitutes the empty byte string:
the sample never depends on the file at all. -/
def sampleOf (_f : SrcFile) : List Nat := []

/-- The 2048-byte prefix the binary guard was written to sample (what a
size-accepting `read_bytes(abs_path, 2048)` would have returned).  Used
only to state the divergence between the guard's intent and the program's
behaviour. -/
def intendedSample (f : SrcFile) : List Nat := f.fileBytes.take 2048

/-- `CTP_CODEMAP_SIZE_LIMIT` default. -/
def SAFE_SIZE_LIMIT : Nat := 4000000

/-- The body of `_extract_one` once the language is known: binary guard
(over the always-empty sample), size guard, then the `read_text` outcome —
a text, the `Unreadable file` stub, or an uncaught exception propagating
(`.error`), which the caller's batch loop will downgrade. -/
def extractOneGuarded (lang : PyStr) (f : SrcFile) : Except PyStr CodemapInfo :=
  if isBinarySample (sampleOf f) then
    .ok (.errorStub (pys "Binary file – skipped"))
  else if SAFE_SIZE_LIMIT < f.size then
    .ok (.errorStub (pys "File > size limit (4 MB) – skipped"))
  else
    match f.textRead with
    | .error e => .error e
    | .ok none => .ok (.errorStub (pys "Unreadable file"))
    | .ok (some _) =>
      if lang = pys "txt" then .ok (.symbols [] [] (f.txtHeads.take 10))
      else .ok (.symbols f.parsedClasses f.parsedFunctions f.parsedReferences)

/-- `CodemapService._extract_one`; `.error` = an exception escaping it. -/
def extractOne (f : SrcFile) : Except PyStr CodemapInfo :=
  match langFor f.path with
  | none => .ok (.errorStub (pys "ignored"))
  | some lang => extractOneGuarded lang f

/-- Failing input for the binary-guard claim: a supported-extension file of
sixteen 0x80 bytes (binary by the code's own 30 % test); decoding it as
UTF-8 raises `UnicodeDecodeError` (message abbreviated to ASCII), which
`read_text` does not catch, so the exception escapes `_extract_one`. -/
def binBlob : SrcFile :=
  ⟨pys "/proj/blob.py", List.replicate 16 128, 16,
   .error (pys "UnicodeDecodeError: utf-8 codec cannot decode byte 0x80 in position 0"),
   [], [], [], []⟩

/-- The per-path entry computed inside the `extract_codemap` loop: a stub
for non-files, else the `_extract_one` outcome with any raised exception
downgraded to an error stub carrying `str(exc)`. -/
def entryFor (isFile : PyStr → Bool) (extractOr : PyStr → Except PyStr CodemapInfo)
    (rel : PyStr) : CodemapInfo :=
  if isFile rel = false then .errorStub (pys "Not a regular file")
  else
    match extractOr rel with
    | .ok info => info
    | .error msg => .errorStub msg

/-- Python dict assignment `result[rel] = v` (insertion order kept; a
re-assignment overwrites in place). -/
def dictInsert : List (PyStr × CodemapInfo) → PyStr → CodemapInfo →
    List (PyStr × CodemapInfo)
  | [], k, v => [(k, v)]
  | kv :: rest, k, v =>
    if kv.1 = k then (k, v) :: rest else kv :: dictInsert rest k v

/-- Dict lookup. -/
def dictGet (m : List (PyStr × CodemapInfo)) (k : PyStr) : Option CodemapInfo :=
  (m.find? (fun kv => kv.1 == k)).map (fun kv => kv.2)

/-- `CodemapService.extract_codemap`: reject a missing base directory,
then build one entry per requested path; `_extract_one` failures are
contained per path. -/
def extract_codemap (baseDirIsDir : Bool) (relPaths : List PyStr)
    (isFile : PyStr → Bool) (extractOr : PyStr → Except PyStr CodemapInfo) :
    Except PyStr (List (PyStr × CodemapInfo)) :=
  if baseDirIsDir = false then
    .error (pys "base_dir must be an existing directory")
  else
    .ok (relPaths.foldl
      (fun acc rel => dictInsert acc rel (entryFor isFile extractOr rel)) [])

/-! ### Request validation (`models/autoselect_request.py` and
`controllers/autoselect_controller.py`) -/

/-- A JSON value as far as the validators inspect it. -/
inductive JVal where
  | str (s : PyStr)
  | arr (xs : List JVal)
  | other

/-- `data.get(k)` on a JSON object. -/
def jLookup (data : List (PyStr × JVal)) (k : PyStr) : Option JVal :=
  (data.find? (fun kv => kv.1 == k)).map (fun kv => kv.2)

/-- The validated request of `AutoSelectRequest.from_dict`. -/
structure AutoSelectReq where
  instructions : PyStr
  treePaths : List PyStr
  baseDir : Option PyStr
deriving DecidableEq

/-- `AutoSelectRequest.from_dict(data)`: instructions must be a non-blank
string, treePaths a non-empty list of strings, baseDir a string when
present.  Error messages are abbreviated to ASCII. -/
def fromDict (data : List (PyStr × JVal)) : Except PyStr AutoSelectReq :=
  let instrErr : PyStr := pys "instructions must be a non-empty string."
  let treeErr : PyStr := pys "treePaths must be a non-empty array of strings."
  let baseErr : PyStr := pys "baseDir must be a string if provided."
  match jLookup data (pys "instructions") with
  | some (.str instr) =>
    if pyStripWs instr = [] then .error instrErr
    else
      match jLookup data (pys "treePaths") with
      | some (.arr xs) =>
        if xs.isEmpty || !(xs.all (fun x => match x with | .str _ => true | _ => false))
        then .error treeErr
        else
          let paths := xs.filterMap
            (fun x => match x with | .str s => some (pyStripWs s) | _ => none)
          match jLookup data (pys "baseDir") with
          | some (.str b) =>
            .ok ⟨pyStripWs instr, paths,
                 if pyStripWs b = [] then none else some (pyStripWs b)⟩
          | some _ => .error baseErr
          | none => .ok ⟨pyStripWs instr, paths, none⟩
      | _ => .error treeErr
  | _ => .error instrErr

/-- `_validate_payload(data)` of the autoselect controller.
`AutoSelectRequest` is a plain dataclass (it has neither `model_validate`
nor `parse_obj`), so the controller calls `AutoSelectRequest(**data)`
directly: construction fails only for an unknown keyword or a missing
`instructions` argument — no field VALUES are validated at all. -/
def validatePayload (data : List (PyStr × JVal)) :
    Except PyStr (JVal × JVal × Option JVal) :=
  if ¬ data.all (fun kv =>
      kv.1 = pys "instructions" ∨ kv.1 = pys "treePaths" ∨ kv.1 = pys "baseDir")
  then .error (pys "unexpected keyword argument")
  else
    match jLookup data (pys "instructions") with
    | none => .error (pys "missing required argument instructions")
    | some instr =>
      .ok (instr, (jLookup data (pys "treePaths")).getD (.arr []),
           jLookup data (pys "baseDir"))

/-- Spec-side transformation (formalising the words of the normalisation
claim, for comparison with the code): convert every backslash to a forward
slash before normalising. -/
def backslashToSlash (s : PyStr) : PyStr :=
  s.map (fun c => if c = '\\' then '/' else c)

/-- Spec-side normalisation per the claim's words: backslashes become
slashes, then the usual leading-junk stripping and posix normalisation. -/
def specNorm (s : PyStr) : PyStr := pyNorm (backslashToSlash s)

/-! ## Helper lemmas: fuzzy path resolution -/

theorem exactResolve_mem {allowed : List PyStr} {key r : PyStr}
    (h : exactResolve allowed key = some r) : r ∈ allowed := by
  have := List.mem_of_find?_eq_some h
  exact List.mem_reverse.mp this

theorem uniqueMatch_mem {l : List PyStr} {r : PyStr}
    (h : uniqueMatch l = some r) : r ∈ l := by
  match l, h with
  | [b], h =>
    cases h
    exact List.mem_singleton.mpr rfl

theorem resolveStr_mem {allowed : List PyStr} {candNorm r : PyStr}
    (h : resolveStr allowed candNorm = some r) : r ∈ allowed := by
  unfold resolveStr at h
  cases hex : exactResolve allowed candNorm with
  | some b =>
    rw [hex] at h
    cases h
    exact exactResolve_mem hex
  | none =>
    rw [hex] at h
    cases hbase : (if hasDotName candNorm = true then
        uniqueMatch (basenameMatches allowed (pyLower (ppName candNorm)))
      else none) with
    | some b =>
      rw [hbase] at h
      cases h
      by_cases hdot : hasDotName candNorm = true
      · rw [if_pos hdot] at hbase
        exact List.mem_of_mem_filter (uniqueMatch_mem hbase)
      · rw [if_neg hdot] at hbase; cases hbase
    | none =>
      rw [hbase] at h
      exact List.mem_of_mem_filter (uniqueMatch_mem h)

theorem massageResolve_mem {allowed : List PyStr} {it : PyObj} {r : PyStr}
    (h : massageResolve allowed it = some r) : r ∈ allowed := by
  cases it with
  | nonstr => simp [massageResolve] at h
  | str raw => exact resolveStr_mem h

theorem massageAux_mem {allowed : List PyStr} {items : List PyObj}
    {seen : List PyStr} {x : PyStr}
    (h : x ∈ massageAux allowed items seen) : x ∈ allowed := by
  induction items generalizing seen with
  | nil => simp [massageAux] at h
  | cons it rest ih =>
    unfold massageAux at h
    cases hres : massageResolve allowed it with
    | none => simp only [hres] at h; exact ih h
    | some r =>
      simp only [hres] at h
      by_cases hc : r ≠ [] ∧ r ∉ seen
      · rw [if_pos hc] at h
        rcases List.mem_cons.mp h with h | h
        · subst h; exact massageResolve_mem hres
        · exact ih h
      · rw [if_neg hc] at h; exact ih h

theorem massageAux_not_seen {allowed : List PyStr} {items : List PyObj}
    {seen : List PyStr} {x : PyStr}
    (h : x ∈ massageAux allowed items seen) : x ∉ seen := by
  induction items generalizing seen with
  | nil => simp [massageAux] at h
  | cons it rest ih =>
    unfold massageAux at h
    cases hres : massageResolve allowed it with
    | none => simp only [hres] at h; exact ih h
    | some r =>
      simp only [hres] at h
      by_cases hc : r ≠ [] ∧ r ∉ seen
      · rw [if_pos hc] at h
        rcases List.mem_cons.mp h with h | h
        · subst h; exact hc.2
        · intro hx
          exact ih h (List.mem_cons_of_mem _ hx)
      · rw [if_neg hc] at h; exact ih h

theorem massageAux_nodup (allowed : List PyStr) (items : List PyObj)
    (seen : List PyStr) : (massageAux allowed items seen).Nodup := by
  induction items generalizing seen with
  | nil => simp [massageAux]
  | cons it rest ih =>
    unfold massageAux
    cases hres : massageResolve allowed it with
    | none => simp only [hres]; exact ih seen
    | some r =>
      simp only [hres]
      by_cases hc : r ≠ [] ∧ r ∉ seen
      · rw [if_pos hc]
        refine List.nodup_cons.mpr ⟨?_, ih _⟩
        intro hmem
        exact massageAux_not_seen hmem (List.mem_cons_self _ _)
      · rw [if_neg hc]; exact ih seen

theorem massageAux_eq_dedup (allowed : List PyStr) (items : List PyObj)
    (seen : List PyStr) :
    massageAux allowed items seen
      = dedupFirstAux
          ((items.filterMap (massageResolve allowed)).filter (fun r => r ≠ []))
          seen := by
  induction items generalizing seen with
  | nil => simp [massageAux, dedupFirstAux]
  | cons it rest ih =>
    unfold massageAux
    cases hres : massageResolve allowed it with
    | none =>
      simp only [List.filterMap_cons, hres]
      exact ih seen
    | some r =>
      simp only [List.filterMap_cons, hres]
      by_cases hr : r = []
      · subst hr
        rw [List.filter_cons_of_neg (by simp)]
        rw [if_neg (by simp)]
        exact ih seen
      · rw [List.filter_cons_of_pos (by simpa using hr)]
        unfold dedupFirstAux
        by_cases hseen : r ∈ seen
        · rw [if_neg (by simp [hseen]), if_pos hseen]
          exact ih seen
        · rw [if_pos ⟨hr, hseen⟩, if_neg hseen]
          rw [ih]


/-! ## Helper lemmas: heuristic ranker -/

theorem rankLe_total : ∀ a b : ℚ × PyStr, rankLe a b ∨ rankLe b a := by
  intro a b
  rcases lt_trichotomy a.1 b.1 with h | h | h
  · right; left; exact h
  · rcases le_total a.2 b.2 with h2 | h2
    · left; right; exact ⟨h, h2⟩
    · right; right; exact ⟨h.symm, h2⟩
  · left; left; exact h

theorem rankLe_trans : ∀ a b c : ℚ × PyStr,
    rankLe a b → rankLe b c → rankLe a c := by
  intro a b c hab hbc
  rcases hab with hab | ⟨hab1, hab2⟩
  · rcases hbc with hbc | ⟨hbc1, hbc2⟩
    · exact Or.inl (lt_trans hbc hab)
    · exact Or.inl (hbc1 ▸ hab)
  · rcases hbc with hbc | ⟨hbc1, hbc2⟩
    · exact Or.inl (hab1 ▸ hbc)
    · exact Or.inr ⟨hab1.trans hbc1, le_trans hab2 hbc2⟩

instance : IsTotal (ℚ × PyStr) rankLe := ⟨rankLe_total⟩

instance : IsTrans (ℚ × PyStr) rankLe := ⟨rankLe_trans⟩

theorem rankLe_fst_le {a b : ℚ × PyStr} (h : rankLe a b) : b.1 ≤ a.1 := by
  rcases h with h | ⟨h, _⟩
  · exact le_of_lt h
  · exact le_of_eq h.symm

theorem rankScore_nonneg (instrToks : List PyStr) (sf : PyStr → PyStr)
    (lb er : List PyStr) (rel : PyStr) :
    0 ≤ rankScore instrToks sf lb er rel := by
  unfold rankScore
  refine add_nonneg (add_nonneg (add_nonneg (add_nonneg ?_ ?_) ?_) ?_) ?_
  · positivity
  · positivity
  · split
    · norm_num
    · exact le_refl 0
  · cases h : embRank er rel with
    | none => exact le_refl 0
    | some r =>
      refine mul_nonneg ?_ (by norm_num)
      exact Rat.divInt_nonneg (Int.natCast_nonneg r) (Int.natCast_nonneg er.length)
  · positivity

theorem mem_rankedPairs {g : PyStr → ℚ} {tp : List PyStr} {p : ℚ × PyStr}
    (hp : p ∈ tp.map (fun rel => (g rel, rel))) : p.1 = g p.2 ∧ p.2 ∈ tp := by
  rcases List.mem_map.mp hp with ⟨rel, hrel, heq⟩
  subst heq
  exact ⟨rfl, hrel⟩

/-- Unfolding equation of `rank_candidates`. -/
theorem rank_candidates_def (tp : List PyStr) (ins : PyStr)
    (sf : PyStr → PyStr) (er lb : List PyStr) (k : Nat) :
    rank_candidates tp ins sf er lb k =
      (match (tp.map (fun rel =>
          (rankScore (pyTokens ins) sf lb er rel, rel))).insertionSort rankLe with
       | [] => []
       | (s0, _) :: _ =>
         if 0 < s0 then
           ((((tp.map (fun rel =>
             (rankScore (pyTokens ins) sf lb er rel, rel))).insertionSort
               rankLe).take k).map Prod.snd)
         else tp.take k) := rfl

/-- C5: for a non-empty `tree_paths`, `rank_candidates` returns at most
`keep_top` paths, all drawn from `tree_paths`; when some candidate scores
positively the output is sorted by (score desc, path asc) and dominates
every omitted path; when every candidate scores 0 it is the first
`keep_top` paths of `tree_paths` in original order. -/
theorem rank_candidates_shortlist (tp : List PyStr) (ins : PyStr)
    (sf : PyStr → PyStr) (er lb : List PyStr) (k : Nat) (hne : tp ≠ []) :
    ((rank_candidates tp ins sf er lb k).length ≤ k
      ∧ ∀ x ∈ rank_candidates tp ins sf er lb k, x ∈ tp)
    ∧ ((∃ p ∈ tp, 0 < rankScore (pyTokens ins) sf lb er p) →
        (rank_candidates tp ins sf er lb k).Pairwise
          (fun x y => rankLe (rankScore (pyTokens ins) sf lb er x, x)
                             (rankScore (pyTokens ins) sf lb er y, y))
        ∧ ∀ x ∈ rank_candidates tp ins sf er lb k, ∀ y ∈ tp,
            y ∉ rank_candidates tp ins sf er lb k →
            rankLe (rankScore (pyTokens ins) sf lb er x, x)
                   (rankScore (pyTokens ins) sf lb er y, y))
    ∧ ((∀ p ∈ tp, rankScore (pyTokens ins) sf lb er p = 0) →
        rank_candidates tp ins sf er lb k = tp.take k) := by
  classical
  have hdef := rank_candidates_def tp ins sf er lb k
  generalize hgg : rankScore (pyTokens ins) sf lb er = g at hdef ⊢
  generalize hranked : tp.map (fun rel => (g rel, rel)) = ranked at hdef
  generalize hL : ranked.insertionSort rankLe = L at hdef
  have hperm : L.Perm ranked := by
    rw [← hL]; exact List.perm_insertionSort _ _
  have hpair : L.Pairwise rankLe := by
    rw [← hL]; exact List.sorted_insertionSort rankLe ranked
  have hshape : ∀ p ∈ L, p.1 = g p.2 ∧ p.2 ∈ tp := by
    intro p hp
    have hpr : p ∈ ranked := hperm.mem_iff.mp hp
    rw [← hranked] at hpr
    exact mem_rankedPairs hpr
  rw [hdef]
  cases L with
  | nil =>
    exfalso
    have hlen := hperm.length_eq
    rw [← hranked] at hlen
    simp only [List.length_nil, List.length_map] at hlen
    exact hne (List.length_eq_zero.mp hlen.symm)
  | cons hd tl =>
    obtain ⟨s0, r0⟩ := hd
    have hhead := hshape (s0, r0) (List.mem_cons_self _ _)
    have hmax : ∀ p ∈ (s0, r0) :: tl, p.1 ≤ s0 := by
      intro p hp
      rcases List.mem_cons.mp hp with rfl | hp
      · exact le_refl _
      · exact rankLe_fst_le ((List.pairwise_cons.mp hpair).1 p hp)
    dsimp only
    by_cases h0 : 0 < s0
    · rw [if_pos h0]
      have hmemOut : ∀ x ∈ (((s0, r0) :: tl).take k).map Prod.snd, x ∈ tp := by
        intro x hx
        rcases List.mem_map.mp hx with ⟨p, hp, rfl⟩
        exact (hshape p ((List.take_sublist k _).mem hp)).2
      refine ⟨⟨?_, hmemOut⟩, ?_, ?_⟩
      · rw [List.length_map, List.length_take]
        exact min_le_left _ _
      · intro _
        constructor
        · rw [List.pairwise_map]
          have htake : (((s0, r0) :: tl).take k).Pairwise rankLe :=
            List.Pairwise.sublist (List.take_sublist k _) hpair
          refine htake.imp_of_mem ?_
          intro a b ha hb hr
          have ea := (hshape a ((List.take_sublist k _).mem ha)).1
          have eb := (hshape b ((List.take_sublist k _).mem hb)).1
          rcases a with ⟨a1, a2⟩
          rcases b with ⟨b1, b2⟩
          simp only at ea eb
          rw [← ea, ← eb]
          exact hr
        · intro x hx y hy hyn
          rcases List.mem_map.mp hx with ⟨px, hpxTake, rfl⟩
          have hpxL := (List.take_sublist k _).mem hpxTake
          have hpxShape := hshape px hpxL
          have hyL : (g y, y) ∈ (s0, r0) :: tl := by
            refine hperm.mem_iff.mpr ?_
            rw [← hranked]
            exact List.mem_map.mpr ⟨y, hy, rfl⟩
          have hyNotTake : (g y, y) ∉ ((s0, r0) :: tl).take k := by
            intro hc
            exact hyn (List.mem_map.mpr ⟨(g y, y), hc, rfl⟩)
          have hyDrop : (g y, y) ∈ ((s0, r0) :: tl).drop k := by
            have hmem := hyL
            rw [← List.take_append_drop k ((s0, r0) :: tl)] at hmem
            rcases List.mem_append.mp hmem with h | h
            · exact absurd h hyNotTake
            · exact h
          have hsplit : (((s0, r0) :: tl).take k
              ++ ((s0, r0) :: tl).drop k).Pairwise rankLe := by
            rw [List.take_append_drop]
            exact hpair
          have hcross := (List.pairwise_append.mp hsplit).2.2
          have hres := hcross px hpxTake (g y, y) hyDrop
          rcases px with ⟨p1, p2⟩
          simp only at hpxShape
          rw [hpxShape.1] at hres
          exact hres
      · intro hz
        exfalso
        have hz0 : g r0 = 0 := hz r0 hhead.2
        have : s0 = 0 := by
          have := hhead.1
          simp only at this
          rw [this, hz0]
        rw [this] at h0
        exact lt_irrefl 0 h0
    · rw [if_neg h0]
      refine ⟨⟨?_, ?_⟩, ?_, ?_⟩
      · rw [List.length_take]
        exact min_le_left _ _
      · intro x hx
        exact (List.take_sublist k tp).mem hx
      · rintro ⟨p, hp, hppos⟩
        exfalso
        have hpL : (g p, p) ∈ (s0, r0) :: tl := by
          refine hperm.mem_iff.mpr ?_
          rw [← hranked]
          exact List.mem_map.mpr ⟨p, hp, rfl⟩
        have hle := hmax _ hpL
        simp only at hle
        exact h0 (lt_of_lt_of_le hppos hle)
      · intro _
        rfl

/-- Membership helper: every path produced by `rank_candidates` comes from
`tree_paths` (no non-emptiness needed). -/
theorem rank_candidates_mem {tp : List PyStr} {ins : PyStr}
    {sf : PyStr → PyStr} {er lb : List PyStr} {k : Nat} {x : PyStr}
    (hx : x ∈ rank_candidates tp ins sf er lb k) : x ∈ tp := by
  classical
  have hdef := rank_candidates_def tp ins sf er lb k
  generalize hgg : rankScore (pyTokens ins) sf lb er = g at hdef
  generalize hranked : tp.map (fun rel => (g rel, rel)) = ranked at hdef
  generalize hL : ranked.insertionSort rankLe = L at hdef
  have hperm : L.Perm ranked := by
    rw [← hL]; exact List.perm_insertionSort _ _
  rw [hdef] at hx
  cases L with
  | nil => simp at hx
  | cons hd tl =>
    obtain ⟨s0, r0⟩ := hd
    dsimp only at hx
    by_cases h0 : 0 < s0
    · rw [if_pos h0] at hx
      rcases List.mem_map.mp hx with ⟨p, hp, rfl⟩
      have hpL := (List.take_sublist k _).mem hp
      have hpr : p ∈ ranked := hperm.mem_iff.mp hpL
      rw [← hranked] at hpr
      exact (mem_rankedPairs hpr).2
    · rw [if_neg h0] at hx
      exact (List.take_sublist k tp).mem hx

/-- C1: `_massage` returns only verbatim members of `allowed`, without
duplicates (first occurrence kept), in the order the model produced the
candidates (the output is exactly the first-occurrence de-duplication of
the successful non-empty resolutions, taken in candidate order); composed
with the ranker's shortlist, every selected path is a verbatim member of
`tree_paths`. -/
theorem massage_verbatim_subset (items : List PyObj) (allowed : List PyStr) :
    (∀ x ∈ massage items allowed, x ∈ allowed)
    ∧ (massage items allowed).Nodup
    ∧ massage items allowed
        = dedupFirst
            ((items.filterMap (massageResolve allowed)).filter (fun r => r ≠ []))
    ∧ (∀ tp ins sf er lb k x,
        x ∈ massage items (rank_candidates tp ins sf er lb k) → x ∈ tp) := by
  refine ⟨fun x hx => massageAux_mem hx, massageAux_nodup _ _ _,
    massageAux_eq_dedup _ _ _, ?_⟩
  intro tp ins sf er lb k x hx
  exact rank_candidates_mem (massageAux_mem hx)

/-- `find?` returns the unique element satisfying the predicate. -/
theorem find?_eq_of_unique {p : PyStr → Bool} {l : List PyStr} {t : PyStr}
    (ht : t ∈ l) (hp : p t = true) (huniq : ∀ b ∈ l, p b = true → b = t) :
    l.find? p = some t := by
  have hsome : (l.find? p).isSome := List.find?_isSome.mpr ⟨t, ht, hp⟩
  obtain ⟨b, hb⟩ := Option.isSome_iff_exists.mp hsome
  have hbl := List.mem_of_find?_eq_some hb
  have hpb := List.find?_some hb
  rw [hb, huniq b hbl hpb]

/-- C6 (amended): candidate normalisation strips leading `.`/`/`/`\`
characters and lowers case but does NOT convert interior backslashes;
resolution is (1) exact case-insensitive, (2) unique basename, (3) unique
1–3-segment suffix.  Clause 1: a candidate whose stripped, normalised,
lower-cased form matches exactly one allowed path resolves to it (in
particular a pure case difference).  The remaining clauses exercise the
basename step, the suffix step, the ambiguity drop and the leading `./`
strip on concrete inputs. -/
theorem massage_resolution_priority :
    (∀ (allowed : List PyStr) (target cand : PyStr),
      target ∈ allowed → target ≠ [] →
      pyLower (pyNorm (rstripChars [',', ';'] (pyStripWs cand)))
        = pyLower (pyNorm target) →
      (∀ b ∈ allowed, pyLower (pyNorm b) = pyLower (pyNorm target) → b = target) →
      massage [PyObj.str cand] allowed = [target])
    ∧ massage [PyObj.str (pys "Login_Service.py")]
        [pys "auth/login_service.py", pys "utils/email.py"]
        = [pys "auth/login_service.py"]
    ∧ massage [PyObj.str (pys "x/f.py")] [pys "a/x/f.py", pys "b/y/f.py"]
        = [pys "a/x/f.py"]
    ∧ massage [PyObj.str (pys "f.py")] [pys "a/f.py", pys "b/f.py"] = []
    ∧ massage [PyObj.str (pys "./auth/login_service.py")]
        [pys "auth/login_service.py"] = [pys "auth/login_service.py"] := by
  refine ⟨?_, by decide, by decide, by decide, by decide⟩
  intro allowed target cand hmem hne hkey huniq
  have hfind : exactResolve allowed
      (pyLower (pyNorm (rstripChars [',', ';'] (pyStripWs cand))))
      = some target := by
    rw [hkey]
    unfold exactResolve
    refine find?_eq_of_unique (List.mem_reverse.mpr hmem) ?_ ?_
    · exact beq_iff_eq.mpr rfl
    · intro b hb hpb
      exact huniq b (List.mem_reverse.mp hb) (beq_iff_eq.mp hpb)
  unfold massage massageAux massageResolve resolveStr
  dsimp only
  simp only [hfind]
  rw [if_pos ⟨hne, List.not_mem_nil target⟩]
  simp [massageAux]

/-- C6 counterexample: per the claim, backslashes are converted to forward
slashes during normalisation, so `"auth\login_service.py"` would match the
sole allowed path `"auth/login_service.py"` exactly (their claim-side
normal forms coincide); the code performs no such conversion and drops the
candidate. -/
theorem massage_backslash_cex :
    pyLower (specNorm (pys "auth\\login_service.py"))
      = pyLower (specNorm (pys "auth/login_service.py"))
    ∧ massage [PyObj.str (pys "auth\\login_service.py")]
        [pys "auth/login_service.py"] = [] := by
  constructor
  · decide
  · decide

/-- C4: the returned reply dict carries an `ask` key exactly when the
parsed confidence (default 0.0) is below 0.95 AND the call brought no
caller-supplied clarifications; in that case the non-final result is
`{selected, ask, confidence}` verbatim; and `autoselect_paths` consults
the upstream oracle exactly once (its outcome depends only on the first
reply — it never initiates a second LLM round). -/
theorem autoselect_confidence_gate (reply : UpReply) (shortlist : List PyStr)
    (clar : Option (List (PyStr × PyStr))) :
    (((autoselectFinalize reply shortlist clar).2.ask = none)
        ↔ (mkRat 95 100 ≤ reply.confidence.getD 0 ∨ clar ≠ none))
    ∧ ((reply.confidence.getD 0 < mkRat 95 100 ∧ clar = none) →
        (autoselectFinalize reply shortlist clar).2
          = ⟨massage (reply.selected.getD []) shortlist,
             some (reply.ask.getD []), reply.confidence.getD 0⟩)
    ∧ (∀ (o o' : Nat → UpReply) (tp : List PyStr) (ins : PyStr)
          (sf : PyStr → PyStr) (er lb : List PyStr), o 0 = o' 0 →
        autoselect_paths o tp ins sf er lb clar
          = autoselect_paths o' tp ins sf er lb clar) := by
  refine ⟨?_, ?_, ?_⟩
  · unfold autoselectFinalize
    by_cases h : reply.confidence.getD 0 < mkRat 95 100 ∧ clar = none
    · rw [if_pos h]
      dsimp only
      constructor
      · intro hc
        exact absurd hc (by simp)
      · rintro (hge | hne)
        · exact absurd h.1 (not_lt.mpr hge)
        · exact absurd h.2 hne
    · rw [if_neg h]
      dsimp only
      constructor
      · intro _
        by_cases hclar : clar = none
        · rcases not_and_or.mp h with h1 | h2
          · exact Or.inl (not_lt.mp h1)
          · exact absurd hclar h2
        · exact Or.inr hclar
      · intro _
        rfl
  · intro h
    unfold autoselectFinalize
    rw [if_pos h]
  · intro o o' tp ins sf er lb h00
    unfold autoselect_paths
    rw [h00]

/-- C2 (amended): `_call_openrouter` performs exactly one HTTP attempt
(the outcome depends only on the first response of the transport); every
non-200 status — 4xx and 5xx alike — raises `UpstreamError` immediately,
with no retry and no backoff; a 200 reply whose content is already a dict
is returned as-is. -/
theorem call_openrouter_single_attempt :
    (∀ r r' : Nat → HttpResponse, r 0 = r' 0 →
        callOpenrouter r = callOpenrouter r')
    ∧ (∀ r : Nat → HttpResponse, (r 0).status ≠ 200 →
        callOpenrouter r = .error (.httpStatus (r 0).status))
    ∧ (∀ (r : Nat → HttpResponse) (d : UpReply), (r 0).status = 200 →
        (r 0).content = .jsonDict d → callOpenrouter r = .ok d) := by
  refine ⟨?_, ?_, ?_⟩
  · intro r r' h
    unfold callOpenrouter
    rw [h]
  · intro r h
    unfold callOpenrouter
    rw [if_pos h]
  · intro r d h hc
    unfold callOpenrouter
    rw [if_neg (by simp [h])]
    simp only [hc]

/-- C2 counterexample: a 500 response on the first attempt surfaces as an
`UpstreamError` immediately even though the transport would answer 200
from the second attempt on — there is no retry; and a 400 client error
raises the very same `UpstreamError` shape (not a configuration or
invalid-input error). -/
theorem call_openrouter_retry_cex :
    callOpenrouter (fun n => if n = 0 then ⟨500, .otherType⟩
        else ⟨200, .jsonDict ⟨some [], none, none⟩⟩)
      = .error (.httpStatus 500)
    ∧ callOpenrouter (fun _ => ⟨400, .otherType⟩)
      = .error (.httpStatus 400) := by
  exact ⟨rfl, rfl⟩

/-- C3 (amended): as soon as `json.loads` fails on the reply string,
`_call_openrouter` raises `UpstreamError`: the fence-stripping and the
legacy line parser are never consulted on this path (they exist as
`_extract_json` / `_legacy_parse` but have no caller).  The legacy parser
itself, like `_massage`, can only produce verbatim members of `allowed`. -/
theorem call_openrouter_invalid_json_raises :
    (∀ (r : Nat → HttpResponse) (s : PyStr), (r 0).status = 200 →
        (r 0).content = .strContent s none →
        callOpenrouter r = .error .invalidJson)
    ∧ (∀ (r : Nat → HttpResponse) (s : PyStr) (d : UpReply),
        (r 0).status = 200 → (r 0).content = .strContent s (some d) →
        callOpenrouter r = .ok d)
    ∧ (∀ (raw : PyStr) (allowed : List PyStr),
        ∀ x ∈ legacyParse raw allowed, x ∈ allowed) := by
  refine ⟨?_, ?_, ?_⟩
  · intro r s h hc
    unfold callOpenrouter
    rw [if_neg (by simp [h])]
    simp only [hc]
  · intro r s d h hc
    unfold callOpenrouter
    rw [if_neg (by simp [h])]
    simp only [hc]
  · intro raw allowed x hx
    unfold legacyParse massage at hx
    exact massageAux_mem hx

/-- C3 counterexample: a 200 reply whose content is the plain bullet list
`"- a.py\n- b.py"` (not JSON, so `json.loads` fails) makes the code raise
`UpstreamError` — yet the claim's fallback path exists and would succeed:
the legacy line parser applied to that very string recovers both allowed
paths. -/
theorem call_openrouter_fallback_cex :
    callOpenrouter (fun _ => ⟨200, .strContent (pys "- a.py\n- b.py") none⟩)
      = .error .invalidJson
    ∧ legacyParse (pys "- a.py\n- b.py") [pys "a.py", pys "b.py"]
      = [pys "a.py", pys "b.py"] := by
  exact ⟨rfl, by decide⟩

/-! ## Helper lemmas: summary length bound -/

theorem pySplitlinesAux_repl (n : Nat) (cur : PyStr) :
    pySplitlinesAux cur (List.replicate n 'a')
      = if n = 0 ∧ cur = [] then []
        else [cur.reverse ++ List.replicate n 'a'] := by
  induction n generalizing cur with
  | zero =>
    by_cases h : cur = []
    · simp [pySplitlinesAux, h]
    · simp [pySplitlinesAux, h]
  | succ m ih =>
    rw [List.replicate_succ]
    unfold pySplitlinesAux
    rw [if_neg (by decide), if_neg (by decide)]
    rw [ih]
    rw [if_neg (by simp)]
    simp [List.replicate_succ, List.reverse_cons, List.append_assoc]

theorem dropWhile_ws_repl (m : Nat) :
    (List.replicate m 'a').dropWhile (fun c => decide (c ∈ wsChars))
      = List.replicate m 'a' := by
  induction m with
  | zero => rfl
  | succ k ih =>
    rw [List.replicate_succ, List.dropWhile_cons]
    rw [if_neg (by decide)]

theorem pyStripWs_repl (m : Nat) :
    pyStripWs (List.replicate m 'a') = List.replicate m 'a' := by
  unfold pyStripWs lstripChars rstripChars
  rw [dropWhile_ws_repl, List.reverse_replicate, dropWhile_ws_repl,
    List.reverse_replicate]

theorem collapseWsAux_repl (m : Nat) (b : Bool) :
    collapseWsAux b (List.replicate m 'a') = List.replicate m 'a' := by
  induction m generalizing b with
  | zero => rfl
  | succ k ih =>
    rw [List.replicate_succ]
    unfold collapseWsAux
    rw [if_neg (by decide)]
    rw [ih]

theorem cheap_summary_repl :
    cheapSummary [] (List.replicate 10001 'a') = List.replicate 10001 'a' := by
  have hne : List.replicate 10001 'a' ≠ [] := by
    have hlen : (List.replicate 10001 'a').length = 10001 :=
      List.length_replicate _ _
    intro h
    rw [h] at hlen
    exact absurd hlen (by decide)
  unfold cheapSummary
  rw [if_neg hne, if_neg (by simp)]
  have hsplit : pySplitlines (List.replicate 10001 'a')
      = [List.replicate 10001 'a'] := by
    unfold pySplitlines
    rw [pySplitlinesAux_repl]
    rw [if_neg (by simp)]
    rfl
  rw [hsplit]
  simp only [List.map_cons, List.map_nil]
  rw [pyStripWs_repl]
  have hfilt : List.filter (fun l => decide (l ≠ [])) [List.replicate 10001 'a']
      = [List.replicate 10001 'a'] := by
    rw [List.filter_cons]
    rw [if_pos (decide_eq_true hne)]
    rfl
  rw [hfilt]
  simp only [List.take_succ_cons, List.take_nil]
  have hj : joinWith (pys " ") [List.replicate 10001 'a']
      = List.replicate 10001 'a' := rfl
  rw [hj]
  unfold collapseWs
  rw [collapseWsAux_repl]
  rw [if_neg (by rw [List.length_replicate]; decide)]

/-- C8 (amended): every summary produced by `_file_summary` (structured
one-liner or cheap fallback) has length at most `_SUMMARY_MAX_CHARS`,
which the source sets to 20,000 (not the specification's 10,000). -/
theorem file_summary_bounded (extraction : Except PyStr CodemapInfo)
    (headers : List PyStr) (text : PyStr) :
    (fileSummary extraction headers text).length ≤ SUMMARY_MAX_CHARS := by
  have hcheap : ∀ (hs : List PyStr) (t : PyStr),
      (cheapSummary hs t).length ≤ SUMMARY_MAX_CHARS := by
    intro hs t
    unfold cheapSummary
    by_cases h1 : t = []
    · rw [if_pos h1]
      simp [SUMMARY_MAX_CHARS]
    · rw [if_neg h1]
      by_cases h2 : hs ≠ []
      · rw [if_pos h2]
        dsimp only
        by_cases h3 : SUMMARY_MAX_CHARS
            < (joinWith (pys " / ") ((hs.take 50).map pyStripWs)).length
        · rw [if_pos h3, List.length_take]
          exact min_le_left _ _
        · rw [if_neg h3]
          exact le_of_not_lt h3
      · rw [if_neg h2]
        dsimp only
        by_cases h3 : SUMMARY_MAX_CHARS
            < (collapseWs (joinWith (pys " ")
                ((((pySplitlines t).map pyStripWs).filter
                  (fun l => l ≠ [])).take 10))).length
        · rw [if_pos h3]
          rw [List.length_append, List.length_take, List.length_singleton]
          simp only [SUMMARY_MAX_CHARS]
          omega
        · rw [if_neg h3]
          exact le_of_not_lt h3
  have hstruct : ∀ c f r : List PyStr,
      (structuredSummary c f r headers text).length ≤ SUMMARY_MAX_CHARS := by
    intro c f r
    unfold structuredSummary
    by_cases hp : summaryParts c f r ≠ []
    · rw [if_pos hp]
      dsimp only
      by_cases h3 : SUMMARY_MAX_CHARS
          < (joinWith (pys "; ") (summaryParts c f r)).length
      · rw [if_pos h3, List.length_take]
        exact min_le_left _ _
      · rw [if_neg h3]
        exact le_of_not_lt h3
    · rw [if_neg hp]
      exact hcheap headers text
  unfold fileSummary
  cases hdata : dataOf extraction with
  | errorStub msg => exact hcheap headers text
  | symbols c f r => exact hstruct c f r

/-- C8 counterexample: a file whose codemap extraction fails and whose
text is one 10,001-character line yields a summary of length 10,001 —
beyond the 10,000-character bound the claim states (the code's actual
default cap is 20,000). -/
theorem file_summary_exceeds_10k_cex :
    (fileSummary (.error (pys "boom")) [] (List.replicate 10001 'a')).length
      = 10001
    ∧ 10000 < 10001 := by
  constructor
  · show (cheapSummary [] (List.replicate 10001 'a')).length = 10001
    rw [cheap_summary_repl, List.length_replicate]
  · decide

/-! ## Helper lemmas: binary guard -/

theorem isBinarySample_iff (chunk : List Nat) :
    isBinarySample chunk = true
      ↔ (chunk ≠ []
          ∧ 3 * chunk.length
              < 10 * ((chunk.filter (fun b => b < 9 ∨ 126 < b)).length)) := by
  unfold isBinarySample
  by_cases h : chunk = []
  · simp [h]
  · rw [if_neg h]
    rw [decide_eq_true_eq]
    have hl : 0 < chunk.length := List.length_pos.mpr h
    rw [gt_iff_lt, Rat.divInt_eq_div, Rat.divInt_eq_div]
    push_cast
    rw [div_lt_div_iff₀ (by norm_num)
      (by exact_mod_cast hl : (0:ℚ) < (chunk.length : ℚ))]
    constructor
    · intro hq
      refine ⟨h, ?_⟩
      have h2 : (3:ℚ) * chunk.length
          < 10 * ((chunk.filter (fun b => b < 9 ∨ 126 < b)).length) := by
        linarith
      exact_mod_cast h2
    · intro ⟨_, hn⟩
      have h2 : (3:ℚ) * chunk.length
          < 10 * ((chunk.filter (fun b => b < 9 ∨ 126 < b)).length) := by
        exact_mod_cast hn
      linarith

/-- C7: the binary guard of `_extract_one` can never fire.
`FileStorageRepository.read_bytes(file_path)` accepts no size argument, so
`read_bytes(abs_path, _BINARY_SAMPLE_BYTES)` always raises `TypeError` and
the surrounding `except` substitutes `b""`: the sample is always empty
(clause 1), hence the `Binary file – skipped` stub is unreachable for every
file (clause 2).  At the failing input — a supported-extension file whose
bytes the code's own 30 % test classifies as binary (clause 3) — extraction
goes on to read the full file, `read_text` raises `UnicodeDecodeError`
(an exception class it does not catch), and the batch loop of
`extract_codemap` downgrades that exception to a `str(exc)` stub for the
path (clauses 4 and 5): the summary is never the claimed `Binary`
variant. -/
theorem binary_guard_never_fires :
    (∀ f : SrcFile, sampleOf f = [])
    ∧ (∀ (f : SrcFile) (info : CodemapInfo),
        extractOne f = .ok info →
        info ≠ .errorStub (pys "Binary file – skipped"))
    ∧ isBinarySample (intendedSample binBlob) = true
    ∧ extractOne binBlob
        = .error (pys "UnicodeDecodeError: utf-8 codec cannot decode byte 0x80 in position 0")
    ∧ entryFor (fun _ => true) (fun _ => extractOne binBlob) (pys "blob.py")
        = .errorStub (pys "UnicodeDecodeError: utf-8 codec cannot decode byte 0x80 in position 0") := by
  refine ⟨fun _ => rfl, ?_, by decide, rfl, rfl⟩
  intro f info h
  unfold extractOne at h
  cases hl : langFor f.path with
  | none =>
    simp only [hl] at h
    injection h with h2
    subst h2
    decide
  | some lang =>
    simp only [hl] at h
    unfold extractOneGuarded at h
    have hbin : isBinarySample (sampleOf f) = false := rfl
    rw [if_neg (by rw [hbin]; exact Bool.false_ne_true)] at h
    by_cases hsz : SAFE_SIZE_LIMIT < f.size
    · rw [if_pos hsz] at h
      injection h with h2
      subst h2
      decide
    · rw [if_neg hsz] at h
      cases ht : f.textRead with
      | error e =>
        rw [ht] at h
        cases h
      | ok topt =>
        rw [ht] at h
        cases topt with
        | none =>
          injection h with h2
          subst h2
          decide
        | some t =>
          by_cases htxt : lang = pys "txt"
          · rw [if_pos htxt] at h
            injection h with h2
            subst h2
            intro hc
            exact CodemapInfo.noConfusion hc
          · rw [if_neg htxt] at h
            injection h with h2
            subst h2
            intro hc
            exact CodemapInfo.noConfusion hc

/-- C9: the documented validator `AutoSelectRequest.from_dict` does reject
a blank-instructions / empty-treePaths request, but the controller's
`_validate_payload` never calls it: it constructs the plain dataclass
directly and accepts the very same request, so no `InvalidInput` rejection
happens before ranking or the upstream call.  (The repo's own endpoint
tests, and the docstring of `from_dict`, require the 400 rejection.) -/
theorem validate_payload_accepts_blank_request :
    (validatePayload
        [(pys "instructions", .str (pys "   ")),
         (pys "treePaths", .arr []),
         (pys "baseDir", .str (pys "/tmp/project"))]).isOk = true
    ∧ fromDict
        [(pys "instructions", .str (pys "   ")),
         (pys "treePaths", .arr []),
         (pys "baseDir", .str (pys "/tmp/project"))]
      = .error (pys "instructions must be a non-empty string.") := by
  exact ⟨rfl, rfl⟩

/-! ## Helper lemmas: codemap batch extraction -/

theorem dictGet_insert_self (m : List (PyStr × CodemapInfo)) (k : PyStr)
    (v : CodemapInfo) : dictGet (dictInsert m k v) k = some v := by
  induction m with
  | nil =>
    unfold dictInsert dictGet
    simp [List.find?]
  | cons kv rest ih =>
    unfold dictInsert
    by_cases h : kv.1 = k
    · rw [if_pos h]
      unfold dictGet
      simp [List.find?]
    · rw [if_neg h]
      unfold dictGet at ih ⊢
      rw [List.find?_cons_of_neg _ (by simpa using h)]
      exact ih

theorem dictGet_insert_other (m : List (PyStr × CodemapInfo)) (k k' : PyStr)
    (v : CodemapInfo) (hk : k' ≠ k) :
    dictGet (dictInsert m k v) k' = dictGet m k' := by
  induction m with
  | nil =>
    unfold dictInsert dictGet
    rw [List.find?_cons_of_neg _ (by simpa using Ne.symm hk)]
  | cons kv rest ih =>
    unfold dictInsert
    by_cases h : kv.1 = k
    · rw [if_pos h]
      unfold dictGet
      rw [List.find?_cons_of_neg _ (by simpa using Ne.symm hk),
        List.find?_cons_of_neg _ (by rw [h]; simpa using Ne.symm hk)]
    · rw [if_neg h]
      unfold dictGet at ih ⊢
      by_cases h2 : kv.1 = k'
      · rw [List.find?_cons_of_pos _ (by simpa using h2),
          List.find?_cons_of_pos _ (by simpa using h2)]
      · rw [List.find?_cons_of_neg _ (by simpa using h2),
          List.find?_cons_of_neg _ (by simpa using h2)]
        exact ih

theorem keys_insert (m : List (PyStr × CodemapInfo)) (k : PyStr)
    (v : CodemapInfo) :
    (dictInsert m k v).map Prod.fst
      = if k ∈ m.map Prod.fst then m.map Prod.fst
        else m.map Prod.fst ++ [k] := by
  induction m with
  | nil =>
    unfold dictInsert
    rw [if_neg (by simp)]
    simp
  | cons kv rest ih =>
    unfold dictInsert
    by_cases h : kv.1 = k
    · rw [if_pos h]
      have hkmem : k ∈ (kv :: rest).map Prod.fst := by
        rw [List.map_cons, h]
        exact List.mem_cons_self _ _
      rw [if_pos hkmem, List.map_cons, List.map_cons, h]
    · rw [if_neg h, List.map_cons, List.map_cons, ih]
      by_cases h2 : k ∈ rest.map Prod.fst
      · rw [if_pos h2,
          if_pos (show k ∈ kv.1 :: rest.map Prod.fst from
            List.mem_cons_of_mem _ h2)]
      · rw [if_neg h2]
        rw [if_neg (show k ∉ kv.1 :: rest.map Prod.fst by
          intro hc
          rcases List.mem_cons.mp hc with hc | hc
          · exact h hc.symm
          · exact h2 hc)]
        rw [List.cons_append]

theorem dedupFirstAux_congr (l : List PyStr) (s₁ s₂ : List PyStr)
    (h : ∀ x, x ∈ s₁ ↔ x ∈ s₂) :
    dedupFirstAux l s₁ = dedupFirstAux l s₂ := by
  induction l generalizing s₁ s₂ with
  | nil => rfl
  | cons x xs ih =>
    unfold dedupFirstAux
    by_cases hx : x ∈ s₁
    · rw [if_pos hx, if_pos ((h x).mp hx)]
      exact ih s₁ s₂ h
    · rw [if_neg hx, if_neg (fun hc => hx ((h x).mpr hc))]
      rw [ih (x :: s₁) (x :: s₂) (by intro y; simp [h y])]

theorem dedupFirstAux_cons (x : PyStr) (xs seen : List PyStr) :
    dedupFirstAux (x :: xs) seen
      = if x ∈ seen then dedupFirstAux xs seen
        else x :: dedupFirstAux xs (x :: seen) := rfl

theorem foldl_insert_keys (e : PyStr → CodemapInfo) (l : List PyStr)
    (acc : List (PyStr × CodemapInfo)) :
    ((l.foldl (fun a rel => dictInsert a rel (e rel)) acc).map Prod.fst)
      = acc.map Prod.fst ++ dedupFirstAux l (acc.map Prod.fst) := by
  induction l generalizing acc with
  | nil => simp [dedupFirstAux]
  | cons rel rest ih =>
    simp only [List.foldl_cons]
    rw [ih, keys_insert, dedupFirstAux_cons]
    by_cases h : rel ∈ acc.map Prod.fst
    · simp only [if_pos h]
    · simp only [if_neg h]
      rw [dedupFirstAux_congr rest (acc.map Prod.fst ++ [rel])
        (rel :: acc.map Prod.fst) (by
          intro x
          rw [List.mem_append, List.mem_singleton, List.mem_cons]
          exact or_comm)]
      rw [List.append_assoc, List.singleton_append]

theorem foldl_insert_get_preserve (e : PyStr → CodemapInfo) (l : List PyStr) :
    ∀ (acc : List (PyStr × CodemapInfo)) (rel : PyStr),
      dictGet acc rel = some (e rel) →
      dictGet (l.foldl (fun a r => dictInsert a r (e r)) acc) rel
        = some (e rel) := by
  induction l with
  | nil =>
    intro acc rel h
    exact h
  | cons r rest ih =>
    intro acc rel hacc
    simp only [List.foldl_cons]
    by_cases h : r = rel
    · subst h
      exact ih _ r (dictGet_insert_self acc r (e r))
    · refine ih _ rel ?_
      rw [dictGet_insert_other acc r rel (e r) (Ne.symm h)]
      exact hacc

theorem foldl_insert_get (e : PyStr → CodemapInfo) (l : List PyStr) :
    ∀ (acc : List (PyStr × CodemapInfo)) (rel : PyStr), rel ∈ l →
      dictGet (l.foldl (fun a r => dictInsert a r (e r)) acc) rel
        = some (e rel) := by
  induction l with
  | nil =>
    intro acc rel h
    cases h
  | cons r rest ih =>
    intro acc rel hrel
    simp only [List.foldl_cons]
    rcases List.mem_cons.mp hrel with h | h
    · subst h
      exact foldl_insert_get_preserve e rest _ rel
        (dictGet_insert_self acc rel (e rel))
    · exact ih _ rel h

/-- C10: with an existing base directory, `extract_codemap` succeeds and
returns one entry per requested path (keys are the requested paths,
first-occurrence de-duplicated, in order); a path whose `_extract_one`
raises gets an error entry carrying the exception message for that path
only; and changing the extraction outcome of one path never changes the
entry of any other path: a per-file failure is contained to its file. -/
theorem extract_codemap_batch (relPaths : List PyStr) (isFile : PyStr → Bool)
    (o : PyStr → Except PyStr CodemapInfo) :
    ∃ m, extract_codemap true relPaths isFile o = .ok m
      ∧ m.map Prod.fst = dedupFirst relPaths
      ∧ (∀ rel ∈ relPaths, dictGet m rel = some (entryFor isFile o rel))
      ∧ (∀ rel msg, rel ∈ relPaths → isFile rel = true → o rel = .error msg →
          dictGet m rel = some (.errorStub msg))
      ∧ (∀ (o' : PyStr → Except PyStr CodemapInfo)
            (m' : List (PyStr × CodemapInfo)) (bad : PyStr),
          extract_codemap true relPaths isFile o' = .ok m' →
          (∀ r, r ≠ bad → o r = o' r) →
          ∀ p ∈ relPaths, p ≠ bad → dictGet m p = dictGet m' p) := by
  refine ⟨relPaths.foldl
      (fun acc rel => dictInsert acc rel (entryFor isFile o rel)) [],
    ?_, ?_, ?_, ?_, ?_⟩
  · unfold extract_codemap
    rw [if_neg (by simp)]
  · rw [foldl_insert_keys]
    rfl
  · intro rel hrel
    exact foldl_insert_get (entryFor isFile o) relPaths [] rel hrel
  · intro rel msg hrel hfile herr
    rw [foldl_insert_get (entryFor isFile o) relPaths [] rel hrel]
    unfold entryFor
    rw [if_neg (by simp [hfile]), herr]
  · intro o' m' bad hm' ho p hp hpbad
    have hm'eq : m' = relPaths.foldl
        (fun acc rel => dictInsert acc rel (entryFor isFile o' rel)) [] := by
      unfold extract_codemap at hm'
      rw [if_neg (by simp)] at hm'
      injection hm' with hm'
      exact hm'.symm
    rw [hm'eq]
    rw [foldl_insert_get (entryFor isFile o) relPaths [] p hp,
      foldl_insert_get (entryFor isFile o') relPaths [] p hp]
    unfold entryFor
    rw [ho p hpbad]

/-! ## Witnesses: each theorem above applied at a concrete input -/

theorem massage_verbatim_subset_w :
    pys "auth/login_service.py"
      ∈ [pys "auth/login_service.py", pys "utils/email.py",
         pys "unrelated/data.py"] :=
  (massage_verbatim_subset
      [PyObj.str (pys "auth/login_service.py"), PyObj.str (pys "utils/email.py")]
      [pys "auth/login_service.py", pys "utils/email.py",
       pys "unrelated/data.py"]).1
    (pys "auth/login_service.py") (by decide)

theorem call_openrouter_single_attempt_w :
    callOpenrouter (fun _ => ⟨503, .otherType⟩) = .error (.httpStatus 503) :=
  call_openrouter_single_attempt.2.1 (fun _ => ⟨503, .otherType⟩) (by decide)

theorem call_openrouter_invalid_json_raises_w :
    callOpenrouter (fun _ => ⟨200, .strContent (pys "not json") none⟩)
      = .error .invalidJson :=
  call_openrouter_invalid_json_raises.1
    (fun _ => ⟨200, .strContent (pys "not json") none⟩) (pys "not json") rfl rfl

theorem autoselect_confidence_gate_w :
    (autoselectFinalize
        ⟨some [PyObj.str (pys "a.py")], some [pys "which auth flow?"],
         some (mkRat 3 5)⟩
        [pys "a.py"] none).2
      = ⟨[pys "a.py"], some [pys "which auth flow?"], mkRat 3 5⟩ := by
  have h := (autoselect_confidence_gate
      ⟨some [PyObj.str (pys "a.py")], some [pys "which auth flow?"],
       some (mkRat 3 5)⟩ [pys "a.py"] none).2.1 ⟨by decide, rfl⟩
  rw [h]
  decide

theorem rank_candidates_shortlist_w :
    (rank_candidates [pys "auth/login_service.py", pys "utils/email.py"]
        (pys "implement password reset with email notifications")
        (fun _ => []) [pys "utils/email.py"] [pys ".py"] 120).length ≤ 120 :=
  (rank_candidates_shortlist
      [pys "auth/login_service.py", pys "utils/email.py"]
      (pys "implement password reset with email notifications")
      (fun _ => []) [pys "utils/email.py"] [pys ".py"] 120 (by decide)).1.1

theorem massage_resolution_priority_w :
    massage [PyObj.str (pys "Auth/Login_Service.py")]
        [pys "auth/login_service.py", pys "utils/email.py"]
      = [pys "auth/login_service.py"] :=
  massage_resolution_priority.1
    [pys "auth/login_service.py", pys "utils/email.py"]
    (pys "auth/login_service.py") (pys "Auth/Login_Service.py")
    (by decide) (by decide) (by decide) (by decide)

theorem extract_codemap_batch_w :
    ∃ m, extract_codemap true [pys "a.py", pys "b.py"] (fun _ => true)
        (fun r => if r = pys "a.py" then .error (pys "boom")
                  else .ok (.symbols [] [] [])) = .ok m
      ∧ dictGet m (pys "a.py") = some (.errorStub (pys "boom")) := by
  obtain ⟨m, h1, _, _, h4, _⟩ := extract_codemap_batch
    [pys "a.py", pys "b.py"] (fun _ => true)
    (fun r => if r = pys "a.py" then .error (pys "boom")
              else .ok (.symbols [] [] []))
  exact ⟨m, h1, h4 (pys "a.py") (pys "boom") (by decide) rfl (by rfl)⟩

end CTP
